import Mathlib

set_option maxRecDepth 100000

/-!
Verification of the neurontainer RCE dispatch core.

This file shallowly embeds the backend source of the neurontainer
repository (src/backend/src/rce.ts, src/backend/src/config/permissions.ts,
src/backend/src/functions/*.ts, src/backend/src/consts/index.ts) in Lean 4
and proves the spec's claims about it.

JavaScript objects are modelled as association lists in insertion order
with unique keys maintained by `objInsert` (JS property assignment:
update in place, else append).  JavaScript values that can appear in a
parsed JSON config file are modelled by the inductive `JsVal`, with
`jsUndefined` for the JS value `undefined` (absent property).
-/

namespace Neurontainer

/-- A JavaScript runtime value, as far as the config plumbing can observe it.
Numbers are modelled as integers (no claim depends on float behaviour). -/
inductive JsVal where
  | jsBool (b : Bool)
  | jsNum (n : Int)
  | jsStr (s : String)
  | jsNull
  | jsUndefined
  | jsObj (fields : List (String × JsVal))
  | jsArr (elems : List JsVal)

/-- A JavaScript object: fields in insertion order.  Invariant in every
reachable state: keys are unique (JS objects cannot hold duplicate keys). -/
abbrev JsObj := List (String × JsVal)

/-- JS truthiness (`Boolean(v)` / `if (v)`). -/
def jsTruthy : JsVal → Bool
  | JsVal.jsBool b => b
  | JsVal.jsNum n => decide (n ≠ 0)
  | JsVal.jsStr s => !s.isEmpty
  | JsVal.jsNull => false
  | JsVal.jsUndefined => false
  | JsVal.jsObj _ => true
  | JsVal.jsArr _ => true

/-- The `typeof v === 'object'` (true for objects, arrays and `null`). -/
def jsTypeofObject : JsVal → Bool
  | JsVal.jsNull => true
  | JsVal.jsObj _ => true
  | JsVal.jsArr _ => true
  | _ => false

/-- Property read `o[k]` on an object with unique keys: first (= only)
binding wins. -/
def jsLookup : JsObj → String → Option JsVal
  | [], _ => none
  | p :: rest, k => if p.1 == k then some p.2 else jsLookup rest k

/-- JS property assignment `o[k] = v`: overwrite in place (keeping the
key's insertion position), else append a new binding. -/
def objInsert : JsObj → String → JsVal → JsObj
  | [], k, v => [(k, v)]
  | p :: rest, k, v => if p.1 == k then (k, v) :: rest else p :: objInsert rest k v

/-- Object spread `{...dst, ...src}`: fold the bindings of `src` into
`dst` by property assignment, left to right. -/
def spreadInto : JsObj → JsObj → JsObj
  | dst, [] => dst
  | dst, p :: rest => spreadInto (objInsert dst p.1 p.2) rest

/-- The key sequence of an object (insertion order, `Object.keys`). -/
def keysOf (l : JsObj) : List String := l.map Prod.fst

/-- The JS-object invariant: all keys distinct. -/
def NodupKeys (l : JsObj) : Prop := (keysOf l).Nodup

/-- The view of a JS value as a property map: objects expose their
fields, arrays expose index keys, anything else has no own properties.
Used where the source casts a parsed value to an object type. -/
def jsObjView : JsVal → JsObj
  | JsVal.jsObj fields => fields
  | JsVal.jsArr elems => (elems.enum.map fun p => (toString p.1, p.2))
  | _ => []

/-- The structural type `ActionLike = { name: string }` from
src/backend/src/config/permissions.ts. -/
structure ActionLike where
  name : String

/-- The `getDefaultConfig` from src/backend/src/config/permissions.ts:
`config[action.name] = true` for every action, into a fresh object. -/
def getDefaultConfig (actions : List ActionLike) : JsObj :=
  actions.foldl (fun cfg act => objInsert cfg act.name (JsVal.jsBool true)) []

/-- The second loop of `normalizeConfig`: a fresh object receiving
`merged[name] = Boolean(mergedRaw[name])` for each key of `mergedRaw` in
order.  (On the unique-keys invariant the value at a key equals the value
stored in its binding.) -/
def boolObj (raw : JsObj) : JsObj :=
  raw.foldl (fun merged p => objInsert merged p.1 (JsVal.jsBool (jsTruthy p.2))) []

/-- The `normalizeConfig` from src/backend/src/config/permissions.ts:
`mergedRaw = {...getDefaultConfig(actions), ...(previous ?? {}), ...(input ?? {})}`
then coerce every value with `Boolean`. -/
def normalizeConfig (actions : List ActionLike) (input : Option JsObj)
    (previous : Option JsObj) : JsObj :=
  boolObj (spreadInto (spreadInto (getDefaultConfig actions) (previous.getD []))
    (input.getD []))

/-- The state of the config file as far as `readConfig` can observe it:
missing, present but blank, present but not valid JSON (`JSON.parse`
throws), or parsed to a JS value.  The filesystem and `JSON.parse` are
external collaborators; the file is modelled at their boundary. -/
inductive FileState where
  | missing
  | blank
  | unparseable
  | parsed (v : JsVal)

/-- What one call of `readConfig` (src/backend/src/config/permissions.ts)
does: the returned config, the config written back to disk by the
self-healing / migration paths (if any), and whether the outer catch
logged a read error. -/
structure ReadConfigOut where
  config : JsObj
  wrote : Option JsObj
  loggedError : Bool

/-- Property read `(parsed as {permissions?}).permissions` on a parsed
value (missing property reads as `undefined`). -/
def jsGetProp (v : JsVal) (k : String) : JsVal :=
  (jsLookup (jsObjView v) k).getD JsVal.jsUndefined

/-- The `readConfig` from src/backend/src/config/permissions.ts.
Missing / blank / non-object files self-heal to the defaults (written
back); an unparseable file throws inside the try, is caught, logged and
degrades to the defaults without writing; a new-format file
(`{permissions: <truthy object>}`) returns its `permissions` value as-is
(the unchecked `as ActionConfig` cast); anything else is treated as the
legacy flat format and migrated through `normalizeConfig`. -/
def readConfig (actions : List ActionLike) (file : FileState) : ReadConfigOut :=
  match file with
  | FileState.missing =>
      let d := getDefaultConfig actions
      ⟨d, some d, false⟩
  | FileState.blank =>
      let d := getDefaultConfig actions
      ⟨d, some d, false⟩
  | FileState.unparseable =>
      ⟨getDefaultConfig actions, none, true⟩
  | FileState.parsed v =>
      if !(jsTruthy v) || !(jsTypeofObject v) then
        let d := getDefaultConfig actions
        ⟨d, some d, false⟩
      else
        let maybePermissions := jsGetProp v "permissions"
        if jsTruthy maybePermissions && jsTypeofObject maybePermissions then
          ⟨jsObjView maybePermissions, none, false⟩
        else
          let normalized := normalizeConfig actions (some (jsObjView v)) none
          ⟨normalized, some normalized, false⟩

/-! ### The action catalog (src/backend/src/types/rce.d.ts, functions/) -/

/-- Permission level enums (src/backend/src/types/rce.d.ts). -/
inductive PermissionLevel where
  | OFF
  | FORCE
  | AUTOPILOT
deriving DecidableEq

/-- The `ActionData`: one inbound request. -/
structure ActionData where
  id : String
  name : String
  params : JsVal

/-- The `ActionResult`: what a handler resolves with. -/
structure ActionResult where
  success : Bool
  message : String
  silent : Option Bool

/-- The `ActionValidationResult`: what a custom validator resolves with
(`message` and `retry` optional). -/
structure ActionValidationResult where
  success : Bool
  message : Option String
  retry : Option Bool

/-- A custom validator, abstracted at its contract: the dispatcher only
observes the `ActionValidationResult` it resolves with. -/
abbrev ValidatorFn := ActionData → ActionValidationResult

/-- The `RCEAction`: one catalog entry.  The `handler` field is an async
function whose only observable at the dispatch boundary is the
`ActionResult` it resolves with (or the exception it throws); that
behaviour is supplied by `DispatchEnv.handlerOutcome` below, so the
embedded catalog entry carries the declared metadata. -/
structure RCEAction where
  name : String
  description : String
  schema : Option JsVal
  defaultPermission : PermissionLevel
  validators : Option (List ValidatorFn)

/-- The wire view `{name, description, schema}` (src/backend/src/utils/misc.ts,
`stripToAction`). -/
structure NeuroAction where
  name : String
  description : String
  schema : Option JsVal

/-- The `stripToAction` from src/backend/src/utils/misc.ts. -/
def stripToAction (a : RCEAction) : NeuroAction :=
  ⟨a.name, a.description, a.schema⟩

/-- The `stripToActions` from src/backend/src/utils/misc.ts. -/
def stripToActions (actions : List RCEAction) : List NeuroAction :=
  actions.map stripToAction

/-- The `containerTargetSchema` from src/backend/src/functions/containers.ts. -/
def containerTargetSchema : JsVal :=
  JsVal.jsObj
    [("type", JsVal.jsStr "object"),
     ("properties", JsVal.jsObj
        [("container", JsVal.jsObj [("type", JsVal.jsStr "string")])]),
     ("required", JsVal.jsArr [JsVal.jsStr "container"])]

/-- The `containerActions` from src/backend/src/functions/containers.ts. -/
def containerActions : List RCEAction :=
  [⟨"list_containers", "List all Docker containers with their current status.",
      none, PermissionLevel.OFF, none⟩,
   ⟨"start_container", "Start a stopped Docker container by name or ID.",
      some containerTargetSchema, PermissionLevel.OFF, none⟩,
   ⟨"stop_container", "Stop a running Docker container by name or ID.",
      some containerTargetSchema, PermissionLevel.OFF, none⟩,
   ⟨"restart_container", "Restart a running Docker container by name or ID.",
      some containerTargetSchema, PermissionLevel.OFF, none⟩,
   ⟨"remove_container", "Remove an existing Docker container by name or ID.",
      some containerTargetSchema, PermissionLevel.OFF, none⟩]

/-- The `imageActions` from src/backend/src/functions/images.ts. -/
def imageActions : List RCEAction :=
  [⟨"list_images", "List all containers created in Docker.",
      none, PermissionLevel.OFF, none⟩]

/-- The `actions` from src/backend/src/functions/index.ts: the full catalog. -/
def actions : List RCEAction := containerActions ++ imageActions

/-- The name-only view of a catalog, as passed to the `ActionLike`
parameters of the permission store. -/
def toActionLikes (catalog : List RCEAction) : List ActionLike :=
  catalog.map fun a => ⟨a.name⟩

/-- What `reregisterAllActions` (src/backend/src/functions/index.ts)
sends to the transport: the duplicate-name error logs, the unregistered
name set, and the registered action set. -/
structure RegOut where
  duplicateLogs : List String
  unregistered : List String
  registered : List NeuroAction

/-- The duplicate-name scan of `reregisterAllActions`: for each index, if
the name was first seen at an earlier index, log an error naming both. -/
def dupScan (catalog : List RCEAction) : List String :=
  (catalog.enum.foldl
    (fun acc p =>
      match acc.1.find? (fun q => q.1 == p.2.name) with
      | some q =>
          (acc.1,
            acc.2 ++ ["Duplicate action name: \"" ++ p.2.name ++ "\" at indices "
              ++ toString q.2 ++ " and " ++ toString p.1])
      | none => (acc.1 ++ [(p.2.name, p.1)], acc.2))
    (([] : List (String × Nat)), ([] : List String))).2

/-- The `reregisterAllActions` from src/backend/src/functions/index.ts:
log duplicate names, unregister every catalog name, then register the
stripped form of the whole catalog. -/
def reregisterAllActions : RegOut :=
  ⟨dupScan actions, actions.map (fun a => a.name), stripToActions actions⟩

/-! ### The dispatch engine (src/backend/src/rce.ts) -/

/-- The `ERROR_MSG_REFERENCE` from src/backend/src/consts/index.ts: the
operator-support pointer appended to infrastructure failure messages. -/
def ERROR_MSG_REFERENCE : String :=
  "Someone tell the VSC-NeuroPilot crew there is a problem with their integration!"

/-- A result of the external `jsonschema.validate` call, at its contract:
the `errors[i].stack` strings the dispatcher reads. -/
structure SchemaError where
  stack : String
deriving DecidableEq

/-- The `{valid, errors}` shape returned by `jsonschema.validate`. -/
structure SchemaOutcome where
  valid : Bool
  errors : List SchemaError

/-- The collaborators of one `RCEActionHandler` run, at their contracts:
whether `CONT.docker` is initialized, what the `readConfig` call returns
(`Except.error` for a thrown exception, absorbed by the catch in rce.ts),
what `jsonschema.validate` returns for this request, and what
`action.handler(actionData)` resolves with (`Except.error` for a rejected
promise). -/
structure DispatchEnv where
  dockerInitialized : Bool
  permCheck : Except Unit JsObj
  validateOutcome : SchemaOutcome
  handlerOutcome : Except Unit ActionResult

/-- Everything one dispatch emits, in order.  `sendActionResult` and
`sendContext` are the two transport ports; the `console.log` / logger
lines are kept; `permCheckRun`, `schemaValidateRun`, `validatorRun` and
`handlerRun` mark the corresponding collaborator calls in rce.ts
(`readConfig(...)`, `validate(...)`, `await v(actionData)`,
`await action.handler(actionData)`). -/
inductive Effect where
  | consoleLog (msg : String)
  | logWarn (msg : String)
  | logError (msg : String)
  | sendContext (msg : String) (silent : Option Bool)
  | sendActionResult (id : String) (success : Bool) (message : Option String)
  | permCheckRun
  | schemaValidateRun
  | validatorRun (idx : Nat)
  | handlerRun
deriving DecidableEq

/-- JS `!x` on a `boolean | undefined` value (`!undefined` is `true`). -/
def jsNot : Option Bool → Bool
  | some b => !b
  | none => true

/-- The permission gate test `permissions[actionData.name] === false`:
only the exact value `false` denies. -/
def permDenies (cfg : JsObj) (name : String) : Bool :=
  match jsLookup cfg name with
  | some (JsVal.jsBool false) => true
  | _ => false

/-- The message of the permission-denied branch of rce.ts. -/
def disabledMsg (name : String) : String :=
  "Action \"" ++ name ++ "\" is disabled by permissions."

/-- The `erm.stack.startsWith('instance.') ? erm.stack.substring(9) : erm.stack`
from the schema-failure branch of rce.ts, computed on the character
list (these messages are ASCII, where JS string indexing and character
counting agree). -/
def stripInstanceDot (stack : String) : String :=
  if "instance.".data.isPrefixOf stack.data then String.mk (stack.data.drop 9)
  else stack

/-- The message-array construction of the schema-failure branch:
stripped error stacks, with a generic fallback when there are none. -/
def schemaMessages (errors : List SchemaError) : List String :=
  let messagesArray := errors.map fun erm => stripInstanceDot erm.stack
  if messagesArray.length == 0 then ["Unknown schema validation error."] else messagesArray

/-- The full caller-facing message of the schema-failure branch. -/
def schemaFailMessage (errors : List SchemaError) : String :=
  "Action failed, your inputs did not pass schema validation due to these problems:\n\n"
    ++ "- " ++ String.intercalate "\n- " (schemaMessages errors)
    ++ "\n\nPlease pay attention to the schema and the above errors if you choose to retry."

/-- Steps 7-9 of the pipeline: the no-message success acknowledgment,
then the handler call whose outcome is reported only on the context
channel (with the failure prefix, the error log, and the `silent` flag
honored; a thrown handler yields the generic context message). -/
def execStage (env : DispatchEnv) (a : ActionData) : List Effect :=
  Effect.sendActionResult a.id true none ::
  Effect.handlerRun ::
  (match env.handlerOutcome with
   | Except.ok actionResult =>
       (if actionResult.success then [] else
         [Effect.logError ("Action " ++ a.name ++ " failed! Full reason: "
            ++ actionResult.message)])
       ++ [Effect.sendContext
             (if actionResult.success then actionResult.message
              else "Action failed: " ++ actionResult.message)
             actionResult.silent]
   | Except.error _ =>
       [Effect.sendContext
          ("Action threw an exception during execution! " ++ ERROR_MSG_REFERENCE)
          none])

/-- The `for (const v of action.validators)` loop: run validators in
order, first failure short-circuits with a result whose success flag is
`!result.retry` and whose message is forwarded verbatim. -/
def validatorStage (env : DispatchEnv) (a : ActionData) :
    Nat → List ValidatorFn → List Effect
  | _, [] => execStage env a
  | idx, v :: rest =>
      Effect.validatorRun idx ::
      (let result := v a
       if result.success then validatorStage env a (idx + 1) rest
       else [Effect.sendActionResult a.id (jsNot result.retry) result.message])

/-- The `if (action.validators)` guard before the loop. -/
def validatorsOrExec (env : DispatchEnv) (a : ActionData) (action : RCEAction) :
    List Effect :=
  match action.validators with
  | some vs => validatorStage env a 0 vs
  | none => execStage env a

/-- The `if (action.schema)` step: validate the params against the
declared schema; on failure send the failed result carrying
`schemaFailMessage` and stop. -/
def schemaStage (env : DispatchEnv) (a : ActionData) (action : RCEAction) :
    List Effect :=
  match action.schema with
  | some _ =>
      Effect.schemaValidateRun ::
      (if env.validateOutcome.valid then validatorsOrExec env a action
       else
         [Effect.sendActionResult a.id false
            (some (schemaFailMessage env.validateOutcome.errors))])
  | none => validatorsOrExec env a action

/-- The permission backup step of rce.ts: reload the store via
`readConfig`; a thrown check is caught and reported as a
`success = true` result with the support pointer; the exact value
`false` denies with a warning-logged message; otherwise continue. -/
def permStage (env : DispatchEnv) (a : ActionData) (action : RCEAction) :
    List Effect :=
  Effect.permCheckRun ::
  (match env.permCheck with
   | Except.error _ =>
       [Effect.logError "Permission check failed:",
        Effect.sendActionResult a.id true
          (some ("Failed to check your access to this action! " ++ ERROR_MSG_REFERENCE))]
   | Except.ok permissions =>
       if permDenies permissions a.name then
         [Effect.logWarn (disabledMsg a.name),
          Effect.sendActionResult a.id false (some (disabledMsg a.name))]
       else schemaStage env a action)

/-- The `RCEActionHandler` from src/backend/src/rce.ts.  The catalog is the
imported `actions` value; it is a parameter here so the theorems can
quantify over catalogs (the shipped one is `Neurontainer.actions`). -/
def RCEActionHandler (catalog : List RCEAction) (env : DispatchEnv)
    (actionData : ActionData) : List Effect :=
  Effect.consoleLog ("Received action from Neuro: " ++ actionData.name) ::
  (if !env.dockerInitialized then
     [Effect.sendContext ("Docker client not initialized, " ++ ERROR_MSG_REFERENCE)
        (some true)]
   else
     match catalog.find? (fun act => act.name == actionData.name) with
     | none => [Effect.sendActionResult actionData.id true (some "Unknown action.")]
     | some action => permStage env actionData action)

/-! ### Helpers for stating the claims -/

/-- Is an effect a `sendActionResult` call? -/
def isResultEffect : Effect → Bool
  | Effect.sendActionResult _ _ _ => true
  | _ => false

/-- The `sendActionResult` calls of a trace, in order. -/
def resultEffects (tr : List Effect) : List Effect := tr.filter isResultEffect

/-- Every `sendActionResult` call in the trace carries this request id. -/
def AllResultsFor (tr : List Effect) (i : String) : Prop :=
  ∀ id success msg, Effect.sendActionResult id success msg ∈ tr → id = i

/-- Is an effect a validator invocation marker? -/
def isValidatorRunEffect : Effect → Bool
  | Effect.validatorRun _ => true
  | _ => false

/-- Is an effect a context message that is not explicitly silent? -/
def isNonSilentContext : Effect → Bool
  | Effect.sendContext _ (some true) => false
  | Effect.sendContext _ _ => true
  | _ => false

/-! ### Branch equations for the dispatcher -/

theorem dispatch_eq_noDocker (catalog : List RCEAction) (env : DispatchEnv)
    (a : ActionData) (hdocker : env.dockerInitialized = false) :
    RCEActionHandler catalog env a
      = [Effect.consoleLog ("Received action from Neuro: " ++ a.name),
         Effect.sendContext ("Docker client not initialized, " ++ ERROR_MSG_REFERENCE)
           (some true)] := by
  simp [RCEActionHandler, hdocker]

theorem dispatch_eq_unknown (catalog : List RCEAction) (env : DispatchEnv)
    (a : ActionData) (hdocker : env.dockerInitialized = true)
    (hfind : catalog.find? (fun act => act.name == a.name) = none) :
    RCEActionHandler catalog env a
      = [Effect.consoleLog ("Received action from Neuro: " ++ a.name),
         Effect.sendActionResult a.id true (some "Unknown action.")] := by
  simp [RCEActionHandler, hdocker, hfind]

theorem dispatch_eq_found (catalog : List RCEAction) (env : DispatchEnv)
    (a : ActionData) (action : RCEAction) (hdocker : env.dockerInitialized = true)
    (hfind : catalog.find? (fun act => act.name == a.name) = some action) :
    RCEActionHandler catalog env a
      = Effect.consoleLog ("Received action from Neuro: " ++ a.name)
          :: permStage env a action := by
  simp [RCEActionHandler, hdocker, hfind]

theorem permStage_eq_error (env : DispatchEnv) (a : ActionData) (action : RCEAction)
    (e : Unit) (hperm : env.permCheck = Except.error e) :
    permStage env a action
      = [Effect.permCheckRun,
         Effect.logError "Permission check failed:",
         Effect.sendActionResult a.id true
           (some ("Failed to check your access to this action! " ++ ERROR_MSG_REFERENCE))] := by
  simp [permStage, hperm]

theorem permStage_eq_denied (env : DispatchEnv) (a : ActionData) (action : RCEAction)
    (permissions : JsObj) (hperm : env.permCheck = Except.ok permissions)
    (hoff : permDenies permissions a.name = true) :
    permStage env a action
      = [Effect.permCheckRun,
         Effect.logWarn (disabledMsg a.name),
         Effect.sendActionResult a.id false (some (disabledMsg a.name))] := by
  simp [permStage, hperm, hoff]

theorem permStage_eq_allowed (env : DispatchEnv) (a : ActionData) (action : RCEAction)
    (permissions : JsObj) (hperm : env.permCheck = Except.ok permissions)
    (hoff : permDenies permissions a.name = false) :
    permStage env a action = Effect.permCheckRun :: schemaStage env a action := by
  simp [permStage, hperm, hoff]

theorem schemaStage_eq_noSchema (env : DispatchEnv) (a : ActionData)
    (action : RCEAction) (hs : action.schema = none) :
    schemaStage env a action = validatorsOrExec env a action := by
  simp [schemaStage, hs]

theorem schemaStage_eq_valid (env : DispatchEnv) (a : ActionData)
    (action : RCEAction) (sch : JsVal) (hs : action.schema = some sch)
    (hvalid : env.validateOutcome.valid = true) :
    schemaStage env a action
      = Effect.schemaValidateRun :: validatorsOrExec env a action := by
  simp [schemaStage, hs, hvalid]

theorem schemaStage_eq_invalid (env : DispatchEnv) (a : ActionData)
    (action : RCEAction) (sch : JsVal) (hs : action.schema = some sch)
    (hvalid : env.validateOutcome.valid = false) :
    schemaStage env a action
      = [Effect.schemaValidateRun,
         Effect.sendActionResult a.id false
           (some (schemaFailMessage env.validateOutcome.errors))] := by
  simp [schemaStage, hs, hvalid]

theorem validatorsOrExec_eq_some (env : DispatchEnv) (a : ActionData)
    (action : RCEAction) (vs : List ValidatorFn) (hv : action.validators = some vs) :
    validatorsOrExec env a action = validatorStage env a 0 vs := by
  simp [validatorsOrExec, hv]

theorem validatorsOrExec_eq_none (env : DispatchEnv) (a : ActionData)
    (action : RCEAction) (hv : action.validators = none) :
    validatorsOrExec env a action = execStage env a := by
  simp [validatorsOrExec, hv]

theorem validatorStage_nil (env : DispatchEnv) (a : ActionData) (idx : Nat) :
    validatorStage env a idx [] = execStage env a := rfl

theorem validatorStage_cons_pass (env : DispatchEnv) (a : ActionData) (idx : Nat)
    (v : ValidatorFn) (rest : List ValidatorFn) (hv : (v a).success = true) :
    validatorStage env a idx (v :: rest)
      = Effect.validatorRun idx :: validatorStage env a (idx + 1) rest := by
  simp [validatorStage, hv]

theorem validatorStage_cons_fail (env : DispatchEnv) (a : ActionData) (idx : Nat)
    (v : ValidatorFn) (rest : List ValidatorFn) (hv : (v a).success = false) :
    validatorStage env a idx (v :: rest)
      = [Effect.validatorRun idx,
         Effect.sendActionResult a.id (jsNot ((v a).retry)) ((v a).message)] := by
  simp [validatorStage, hv]

/-! ### Trace lemmas shared by the dispatcher claims -/

theorem allResultsFor_of_single (tr : List Effect) (i : String) (s : Bool)
    (m : Option String)
    (h : resultEffects tr = [Effect.sendActionResult i s m]) :
    AllResultsFor tr i := by
  intro id success msg hmem
  have hmemf : Effect.sendActionResult id success msg ∈ resultEffects tr :=
    List.mem_filter.mpr ⟨hmem, rfl⟩
  rw [h] at hmemf
  simp only [List.mem_singleton, Effect.sendActionResult.injEq] at hmemf
  exact hmemf.1

/-- The `execStage` sends exactly the acknowledgment (true, no message). -/
theorem resultEffects_execStage (env : DispatchEnv) (a : ActionData) :
    resultEffects (execStage env a) = [Effect.sendActionResult a.id true none] := by
  unfold execStage
  cases env.handlerOutcome with
  | ok actionResult =>
      cases h : actionResult.success <;>
        simp [h, resultEffects, List.filter_cons, List.filter_append, isResultEffect]
  | error e => simp [resultEffects, List.filter_cons, isResultEffect]

/-- The `validatorStage` sends exactly one result with the request's id, and
if the handler ran, that result is the bare acknowledgment. -/
theorem resultEffects_validatorStage (env : DispatchEnv) (a : ActionData) :
    ∀ (vs : List ValidatorFn) (idx : Nat),
      ∃ s m, resultEffects (validatorStage env a idx vs)
          = [Effect.sendActionResult a.id s m]
        ∧ (Effect.handlerRun ∈ validatorStage env a idx vs → s = true ∧ m = none)
  | [], idx => by
      refine ⟨true, none, ?_, fun _ => ⟨rfl, rfl⟩⟩
      rw [validatorStage_nil]
      exact resultEffects_execStage env a
  | v :: rest, idx => by
      cases hv : (v a).success with
      | true =>
          obtain ⟨s, m, hres, hhand⟩ := resultEffects_validatorStage env a rest (idx + 1)
          rw [validatorStage_cons_pass env a idx v rest hv]
          refine ⟨s, m, ?_, ?_⟩
          · rw [show resultEffects (Effect.validatorRun idx
                :: validatorStage env a (idx + 1) rest)
                = resultEffects (validatorStage env a (idx + 1) rest) by
                  simp [resultEffects, List.filter_cons, isResultEffect]]
            exact hres
          · intro hmem
            exact hhand (by simpa using hmem)
      | false =>
          rw [validatorStage_cons_fail env a idx v rest hv]
          refine ⟨jsNot ((v a).retry), (v a).message, ?_, ?_⟩
          · simp [resultEffects, List.filter_cons, isResultEffect]
          · intro hmem
            simp at hmem

/-- The whole dispatch, docker ready: exactly one result is sent, it
carries the request's id, and if the handler ran it is the bare
acknowledgment. -/
theorem dispatch_results_spec (catalog : List RCEAction) (env : DispatchEnv)
    (a : ActionData) (hdocker : env.dockerInitialized = true) :
    ∃ s m, resultEffects (RCEActionHandler catalog env a)
        = [Effect.sendActionResult a.id s m]
      ∧ (Effect.handlerRun ∈ RCEActionHandler catalog env a → s = true ∧ m = none) := by
  cases hfind : catalog.find? (fun act => act.name == a.name) with
  | none =>
      rw [dispatch_eq_unknown catalog env a hdocker hfind]
      refine ⟨true, some "Unknown action.", ?_, ?_⟩
      · simp [resultEffects, List.filter_cons, isResultEffect]
      · intro hmem; simp at hmem
  | some action =>
      rw [dispatch_eq_found catalog env a action hdocker hfind]
      have hcons : ∀ tr : List Effect,
          resultEffects (Effect.consoleLog ("Received action from Neuro: " ++ a.name)
            :: tr) = resultEffects tr := by
        intro tr; simp [resultEffects, List.filter_cons, isResultEffect]
      cases hperm : env.permCheck with
      | error e =>
          rw [permStage_eq_error env a action e hperm]
          refine ⟨true,
            some ("Failed to check your access to this action! " ++ ERROR_MSG_REFERENCE),
            ?_, ?_⟩
          · simp [resultEffects, List.filter_cons, isResultEffect]
          · intro hmem; simp at hmem
      | ok permissions =>
          cases hoff : permDenies permissions a.name with
          | true =>
              rw [permStage_eq_denied env a action permissions hperm hoff]
              refine ⟨false, some (disabledMsg a.name), ?_, ?_⟩
              · simp [resultEffects, List.filter_cons, isResultEffect]
              · intro hmem; simp at hmem
          | false =>
              rw [permStage_eq_allowed env a action permissions hperm hoff]
              have hcont : ∃ s m,
                  resultEffects (validatorsOrExec env a action)
                      = [Effect.sendActionResult a.id s m]
                    ∧ (Effect.handlerRun ∈ validatorsOrExec env a action →
                        s = true ∧ m = none) := by
                cases hvs : action.validators with
                | some vs =>
                    rw [validatorsOrExec_eq_some env a action vs hvs]
                    exact resultEffects_validatorStage env a vs 0
                | none =>
                    rw [validatorsOrExec_eq_none env a action hvs]
                    exact ⟨true, none, resultEffects_execStage env a, fun _ => ⟨rfl, rfl⟩⟩
              obtain ⟨s, m, hres, hhand⟩ := hcont
              cases hschema : action.schema with
              | none =>
                  rw [schemaStage_eq_noSchema env a action hschema]
                  refine ⟨s, m, ?_, ?_⟩
                  · rw [hcons, show resultEffects (Effect.permCheckRun
                        :: validatorsOrExec env a action)
                        = resultEffects (validatorsOrExec env a action) by
                          simp [resultEffects, List.filter_cons, isResultEffect]]
                    exact hres
                  · intro hmem
                    exact hhand (by simpa using hmem)
              | some sch =>
                  cases hvalid : env.validateOutcome.valid with
                  | true =>
                      rw [schemaStage_eq_valid env a action sch hschema hvalid]
                      refine ⟨s, m, ?_, ?_⟩
                      · rw [hcons, show resultEffects (Effect.permCheckRun
                            :: Effect.schemaValidateRun :: validatorsOrExec env a action)
                            = resultEffects (validatorsOrExec env a action) by
                              simp [resultEffects, List.filter_cons, isResultEffect]]
                        exact hres
                      · intro hmem
                        exact hhand (by simpa using hmem)
                  | false =>
                      rw [schemaStage_eq_invalid env a action sch hschema hvalid]
                      refine ⟨false,
                        some (schemaFailMessage env.validateOutcome.errors), ?_, ?_⟩
                      · simp [resultEffects, List.filter_cons, isResultEffect]
                      · intro hmem; simp at hmem

/-! ### Claim C1 -/

/-- C1: for every inbound request whose name matches no action in the
catalog (docker client initialized), the dispatcher sends exactly one
result for the request id with `success = true` and message
"Unknown action.", and no permission check, schema validation, validator
or handler runs for that request. -/
theorem unknown_action_noop_success (catalog : List RCEAction) (env : DispatchEnv)
    (a : ActionData) (hdocker : env.dockerInitialized = true)
    (hfind : catalog.find? (fun act => act.name == a.name) = none) :
    resultEffects (RCEActionHandler catalog env a)
        = [Effect.sendActionResult a.id true (some "Unknown action.")]
      ∧ Effect.permCheckRun ∉ RCEActionHandler catalog env a
      ∧ Effect.schemaValidateRun ∉ RCEActionHandler catalog env a
      ∧ (RCEActionHandler catalog env a).filter isValidatorRunEffect = []
      ∧ Effect.handlerRun ∉ RCEActionHandler catalog env a := by
  rw [dispatch_eq_unknown catalog env a hdocker hfind]
  refine ⟨?_, ?_, ?_, ?_, ?_⟩ <;>
    simp [resultEffects, List.filter_cons, isResultEffect, isValidatorRunEffect]

/-- Witness for C1: the request "bogus" against the shipped catalog. -/
theorem unknown_action_noop_success_witness :
    ((⟨true, Except.ok [], ⟨true, []⟩, Except.error ()⟩ : DispatchEnv).dockerInitialized
        = true)
    ∧ (actions.find? (fun act => act.name == "bogus") = none)
    ∧ (resultEffects (RCEActionHandler actions
          ⟨true, Except.ok [], ⟨true, []⟩, Except.error ()⟩ ⟨"2", "bogus", JsVal.jsNull⟩)
          = [Effect.sendActionResult "2" true (some "Unknown action.")]
        ∧ Effect.permCheckRun ∉ RCEActionHandler actions
            ⟨true, Except.ok [], ⟨true, []⟩, Except.error ()⟩ ⟨"2", "bogus", JsVal.jsNull⟩
        ∧ Effect.schemaValidateRun ∉ RCEActionHandler actions
            ⟨true, Except.ok [], ⟨true, []⟩, Except.error ()⟩ ⟨"2", "bogus", JsVal.jsNull⟩
        ∧ (RCEActionHandler actions
            ⟨true, Except.ok [], ⟨true, []⟩, Except.error ()⟩
            ⟨"2", "bogus", JsVal.jsNull⟩).filter isValidatorRunEffect = []
        ∧ Effect.handlerRun ∉ RCEActionHandler actions
            ⟨true, Except.ok [], ⟨true, []⟩, Except.error ()⟩
            ⟨"2", "bogus", JsVal.jsNull⟩) :=
  ⟨rfl, rfl,
    unknown_action_noop_success actions
      ⟨true, Except.ok [], ⟨true, []⟩, Except.error ()⟩
      ⟨"2", "bogus", JsVal.jsNull⟩ rfl rfl⟩

/-! ### Claim C2 -/

/-- C2: a request for a catalog action whose currently persisted
permission disables it (the store read from the current file state maps
its name to the exact value `false`) is rejected: the dispatcher sends
one failed result whose message names the action, logs that message as a
warning, and never invokes the handler.  The permission value is the one
`readConfig` computes from the file state at dispatch time, not a cached
snapshot; registration state does not appear anywhere in the dispatch,
so this holds even while the action is still registered. -/
theorem disabled_permission_rejects (catalog : List RCEAction) (env : DispatchEnv)
    (a : ActionData) (action : RCEAction) (file : FileState)
    (hdocker : env.dockerInitialized = true)
    (hfind : catalog.find? (fun act => act.name == a.name) = some action)
    (hperm : env.permCheck
      = Except.ok (readConfig (toActionLikes catalog) file).config)
    (hoff : permDenies (readConfig (toActionLikes catalog) file).config a.name = true) :
    resultEffects (RCEActionHandler catalog env a)
        = [Effect.sendActionResult a.id false (some (disabledMsg a.name))]
      ∧ Effect.logWarn (disabledMsg a.name) ∈ RCEActionHandler catalog env a
      ∧ (∃ preS sufS, disabledMsg a.name = preS ++ a.name ++ sufS)
      ∧ Effect.handlerRun ∉ RCEActionHandler catalog env a := by
  rw [dispatch_eq_found catalog env a action hdocker hfind,
    permStage_eq_denied env a action _ hperm hoff]
  refine ⟨?_, ?_, ⟨"Action \"", "\" is disabled by permissions.", rfl⟩, ?_⟩ <;>
    simp [resultEffects, List.filter_cons, isResultEffect]

/-- Witness for C2: a persisted new-format file disabling
"list_containers" while the action is in the catalog. -/
theorem disabled_permission_rejects_witness :
    ((⟨true,
        Except.ok (readConfig (toActionLikes actions)
          (FileState.parsed (JsVal.jsObj
            [("permissions", JsVal.jsObj [("list_containers", JsVal.jsBool false)])]))).config,
        ⟨true, []⟩, Except.error ()⟩ : DispatchEnv).dockerInitialized = true)
    ∧ (actions.find? (fun act => act.name == "list_containers")
        = some ⟨"list_containers",
            "List all Docker containers with their current status.",
            none, PermissionLevel.OFF, none⟩)
    ∧ (permDenies (readConfig (toActionLikes actions)
          (FileState.parsed (JsVal.jsObj
            [("permissions", JsVal.jsObj [("list_containers", JsVal.jsBool false)])]))).config
          "list_containers" = true)
    ∧ (resultEffects (RCEActionHandler actions
          ⟨true,
            Except.ok (readConfig (toActionLikes actions)
              (FileState.parsed (JsVal.jsObj
                [("permissions", JsVal.jsObj
                    [("list_containers", JsVal.jsBool false)])]))).config,
            ⟨true, []⟩, Except.error ()⟩
          ⟨"1", "list_containers", JsVal.jsNull⟩)
        = [Effect.sendActionResult "1" false (some (disabledMsg "list_containers"))]) :=
  ⟨rfl, rfl, rfl,
    (disabled_permission_rejects actions _ ⟨"1", "list_containers", JsVal.jsNull⟩
      ⟨"list_containers", "List all Docker containers with their current status.",
        none, PermissionLevel.OFF, none⟩
      (FileState.parsed (JsVal.jsObj
        [("permissions", JsVal.jsObj [("list_containers", JsVal.jsBool false)])]))
      rfl rfl rfl rfl).1⟩

/-! ### Claim C7 -/

/-- C7, counterexample to the claim as stated: with the docker client
uninitialized, the dispatcher does send a context message referencing
the operator-support pointer and no action result, but that context
message is sent with `silent = true` (rce.ts line 11 passes `true` as
the `silent` argument of `sendContext`), so no non-silent context
message exists in the trace. -/
theorem docker_uninitialized_nonsilent_counterexample :
    Effect.sendContext ("Docker client not initialized, " ++ ERROR_MSG_REFERENCE)
        (some true)
      ∈ RCEActionHandler actions ⟨false, Except.ok [], ⟨true, []⟩, Except.error ()⟩
          ⟨"7", "list_containers", JsVal.jsNull⟩
    ∧ (RCEActionHandler actions ⟨false, Except.ok [], ⟨true, []⟩, Except.error ()⟩
          ⟨"7", "list_containers", JsVal.jsNull⟩).filter isNonSilentContext = []
    ∧ resultEffects (RCEActionHandler actions
          ⟨false, Except.ok [], ⟨true, []⟩, Except.error ()⟩
          ⟨"7", "list_containers", JsVal.jsNull⟩) = [] := by
  decide

/-- C7 as amended: if the resource-manager (docker) client is not
initialized when a request arrives, the dispatcher terminates
immediately, sending one context message — with the silent flag set to
`true` — that references the operator-support pointer, and sends no
action result for the request id (the id is not consumed). -/
theorem docker_uninitialized_silent_context_no_result (catalog : List RCEAction)
    (env : DispatchEnv) (a : ActionData) (hdocker : env.dockerInitialized = false) :
    RCEActionHandler catalog env a
        = [Effect.consoleLog ("Received action from Neuro: " ++ a.name),
           Effect.sendContext ("Docker client not initialized, " ++ ERROR_MSG_REFERENCE)
             (some true)]
      ∧ resultEffects (RCEActionHandler catalog env a) = [] := by
  rw [dispatch_eq_noDocker catalog env a hdocker]
  exact ⟨rfl, by simp [resultEffects, List.filter_cons, isResultEffect]⟩

/-- Witness for C7 (amended) at a concrete uninitialized environment. -/
theorem docker_uninitialized_silent_context_no_result_witness :
    ((⟨false, Except.ok [], ⟨true, []⟩, Except.error ()⟩ : DispatchEnv).dockerInitialized
        = false)
    ∧ (RCEActionHandler actions ⟨false, Except.ok [], ⟨true, []⟩, Except.error ()⟩
          ⟨"7", "start_container", JsVal.jsNull⟩
        = [Effect.consoleLog "Received action from Neuro: start_container",
           Effect.sendContext ("Docker client not initialized, " ++ ERROR_MSG_REFERENCE)
             (some true)]
      ∧ resultEffects (RCEActionHandler actions
          ⟨false, Except.ok [], ⟨true, []⟩, Except.error ()⟩
          ⟨"7", "start_container", JsVal.jsNull⟩) = []) :=
  ⟨rfl,
    docker_uninitialized_silent_context_no_result actions
      ⟨false, Except.ok [], ⟨true, []⟩, Except.error ()⟩
      ⟨"7", "start_container", JsVal.jsNull⟩ rfl⟩

/-! ### Claims C4 and C5: custom validators -/

/-- The validator loop at the first failing validator: the loop emits
one invocation marker per validator up to and including the failing one,
then sends exactly one result, `success = !retry`, message forwarded
verbatim; no handler marker appears. -/
theorem validatorStage_firstFail (env : DispatchEnv) (a : ActionData)
    (v : ValidatorFn) (post : List ValidatorFn) (hfail : (v a).success = false) :
    ∀ (pre : List ValidatorFn) (idx : Nat), (∀ u ∈ pre, (u a).success = true) →
      resultEffects (validatorStage env a idx (pre ++ v :: post))
          = [Effect.sendActionResult a.id (jsNot ((v a).retry)) ((v a).message)]
        ∧ ((validatorStage env a idx (pre ++ v :: post)).filter
            isValidatorRunEffect).length = pre.length + 1
        ∧ Effect.handlerRun ∉ validatorStage env a idx (pre ++ v :: post)
  | [], idx, _ => by
      rw [List.nil_append, validatorStage_cons_fail env a idx v post hfail]
      refine ⟨?_, ?_, ?_⟩ <;>
        simp [resultEffects, List.filter_cons, isResultEffect, isValidatorRunEffect]
  | u :: pre, idx, hpre => by
      have hu : (u a).success = true := hpre u (by simp)
      obtain ⟨h1, h2, h3⟩ := validatorStage_firstFail env a v post hfail pre (idx + 1)
        (fun w hw => hpre w (by simp [hw]))
      rw [List.cons_append, validatorStage_cons_pass env a idx u _ hu]
      refine ⟨?_, ?_, ?_⟩
      · rw [show resultEffects (Effect.validatorRun idx
            :: validatorStage env a (idx + 1) (pre ++ v :: post))
            = resultEffects (validatorStage env a (idx + 1) (pre ++ v :: post)) by
              simp [resultEffects, List.filter_cons, isValidatorRunEffect, isResultEffect]]
        exact h1
      · rw [show (Effect.validatorRun idx
            :: validatorStage env a (idx + 1) (pre ++ v :: post)).filter
              isValidatorRunEffect
            = Effect.validatorRun idx :: (validatorStage env a (idx + 1)
                (pre ++ v :: post)).filter isValidatorRunEffect by
              simp [List.filter_cons, isValidatorRunEffect]]
        rw [List.length_cons, h2, List.length_cons]
      · intro hmem
        cases List.mem_cons.mp hmem with
        | inl h => simp at h
        | inr h => exact h3 h

/-- C4: when a custom validator is the first to fail for a request (all
gates before it passed), the dispatcher sends exactly one result for the
request id whose success flag is the negation of the validator's retry
flag (`retry = some true` gives sent success `false`; `retry = none`
gives sent success `true`), with the validator's message forwarded
verbatim; validators after the failing one and the handler do not run
(exactly `pre.length + 1` validator invocations occur). -/
theorem validator_failure_retry_negation (catalog : List RCEAction)
    (env : DispatchEnv) (a : ActionData) (action : RCEAction) (cfg : JsObj)
    (pre post : List ValidatorFn) (v : ValidatorFn)
    (hdocker : env.dockerInitialized = true)
    (hfind : catalog.find? (fun act => act.name == a.name) = some action)
    (hperm : env.permCheck = Except.ok cfg)
    (hallow : permDenies cfg a.name = false)
    (hgate : action.schema = none ∨ env.validateOutcome.valid = true)
    (hvs : action.validators = some (pre ++ v :: post))
    (hpre : ∀ u ∈ pre, (u a).success = true)
    (hfail : (v a).success = false) :
    resultEffects (RCEActionHandler catalog env a)
        = [Effect.sendActionResult a.id (jsNot ((v a).retry)) ((v a).message)]
      ∧ ((v a).retry = some true → jsNot ((v a).retry) = false)
      ∧ ((v a).retry = none → jsNot ((v a).retry) = true)
      ∧ ((RCEActionHandler catalog env a).filter isValidatorRunEffect).length
          = pre.length + 1
      ∧ Effect.handlerRun ∉ RCEActionHandler catalog env a := by
  obtain ⟨h1, h2, h3⟩ := validatorStage_firstFail env a v post hfail pre 0 hpre
  have hstage : RCEActionHandler catalog env a
      = Effect.consoleLog ("Received action from Neuro: " ++ a.name)
        :: Effect.permCheckRun :: schemaStage env a action := by
    rw [dispatch_eq_found catalog env a action hdocker hfind,
      permStage_eq_allowed env a action cfg hperm hallow]
  cases hs : action.schema with
  | none =>
      have htr : RCEActionHandler catalog env a
          = Effect.consoleLog ("Received action from Neuro: " ++ a.name)
            :: Effect.permCheckRun :: validatorStage env a 0 (pre ++ v :: post) := by
        rw [hstage, schemaStage_eq_noSchema env a action hs,
          validatorsOrExec_eq_some env a action _ hvs]
      rw [htr]
      refine ⟨?_, fun h => by rw [h]; rfl, fun h => by rw [h]; rfl, ?_, ?_⟩
      · rw [show resultEffects (Effect.consoleLog ("Received action from Neuro: "
            ++ a.name) :: Effect.permCheckRun
              :: validatorStage env a 0 (pre ++ v :: post))
            = resultEffects (validatorStage env a 0 (pre ++ v :: post)) by
              simp [resultEffects, List.filter_cons, isResultEffect]]
        exact h1
      · rw [show (Effect.consoleLog ("Received action from Neuro: " ++ a.name)
            :: Effect.permCheckRun
              :: validatorStage env a 0 (pre ++ v :: post)).filter isValidatorRunEffect
            = (validatorStage env a 0 (pre ++ v :: post)).filter isValidatorRunEffect by
              simp [List.filter_cons, isValidatorRunEffect]]
        exact h2
      · intro hmem
        rcases List.mem_cons.mp hmem with h | hmem
        · simp at h
        rcases List.mem_cons.mp hmem with h | hmem
        · simp at h
        exact h3 hmem
  | some sch =>
      have hvalid : env.validateOutcome.valid = true := by
        cases hgate with
        | inl h => rw [h] at hs; cases hs
        | inr h => exact h
      have htr : RCEActionHandler catalog env a
          = Effect.consoleLog ("Received action from Neuro: " ++ a.name)
            :: Effect.permCheckRun :: Effect.schemaValidateRun
              :: validatorStage env a 0 (pre ++ v :: post) := by
        rw [hstage, schemaStage_eq_valid env a action sch hs hvalid,
          validatorsOrExec_eq_some env a action _ hvs]
      rw [htr]
      refine ⟨?_, fun h => by rw [h]; rfl, fun h => by rw [h]; rfl, ?_, ?_⟩
      · rw [show resultEffects (Effect.consoleLog ("Received action from Neuro: "
            ++ a.name) :: Effect.permCheckRun :: Effect.schemaValidateRun
              :: validatorStage env a 0 (pre ++ v :: post))
            = resultEffects (validatorStage env a 0 (pre ++ v :: post)) by
              simp [resultEffects, List.filter_cons, isResultEffect]]
        exact h1
      · rw [show (Effect.consoleLog ("Received action from Neuro: " ++ a.name)
            :: Effect.permCheckRun :: Effect.schemaValidateRun
              :: validatorStage env a 0 (pre ++ v :: post)).filter isValidatorRunEffect
            = (validatorStage env a 0 (pre ++ v :: post)).filter isValidatorRunEffect by
              simp [List.filter_cons, isValidatorRunEffect]]
        exact h2
      · intro hmem
        rcases List.mem_cons.mp hmem with h | hmem
        · simp at h
        rcases List.mem_cons.mp hmem with h | hmem
        · simp at h
        rcases List.mem_cons.mp hmem with h | hmem
        · simp at h
        exact h3 hmem

/-- Witness for C4: a single validator failing with `retry = some true`
yields a sent result with success `false` and its message verbatim. -/
theorem validator_failure_retry_negation_witness :
    ((⟨true, Except.ok [], ⟨true, []⟩, Except.error ()⟩ : DispatchEnv).dockerInitialized
        = true)
    ∧ ([(⟨"ping", "d", none, PermissionLevel.AUTOPILOT,
          some [fun _ => ⟨false, some "try again", some true⟩]⟩ : RCEAction)].find?
          (fun act => act.name == "ping")
        = some ⟨"ping", "d", none, PermissionLevel.AUTOPILOT,
            some [fun _ => ⟨false, some "try again", some true⟩]⟩)
    ∧ (resultEffects (RCEActionHandler
          [⟨"ping", "d", none, PermissionLevel.AUTOPILOT,
            some [fun _ => ⟨false, some "try again", some true⟩]⟩]
          ⟨true, Except.ok [], ⟨true, []⟩, Except.error ()⟩
          ⟨"1", "ping", JsVal.jsNull⟩)
        = [Effect.sendActionResult "1" false (some "try again")]) :=
  ⟨rfl, rfl,
    (validator_failure_retry_negation
      [⟨"ping", "d", none, PermissionLevel.AUTOPILOT,
        some [fun _ => ⟨false, some "try again", some true⟩]⟩]
      ⟨true, Except.ok [], ⟨true, []⟩, Except.error ()⟩
      ⟨"1", "ping", JsVal.jsNull⟩
      ⟨"ping", "d", none, PermissionLevel.AUTOPILOT,
        some [fun _ => ⟨false, some "try again", some true⟩]⟩
      [] [] [] (fun _ => ⟨false, some "try again", some true⟩)
      rfl rfl rfl rfl (Or.inl rfl) rfl (fun u hu => absurd hu (List.not_mem_nil u))
      rfl).1⟩

/-- C5, counterexample to the claim as stated: a first-failing validator
with `retry` unset yields a sent result with success `true`, not
`false` — rce.ts computes the sent flag as `!result.retry`, and in JS
`!undefined` is `true`. -/
theorem retry_unset_sends_true_counterexample :
    resultEffects (RCEActionHandler
        [⟨"ping", "d", none, PermissionLevel.AUTOPILOT,
          some [fun _ => ⟨false, some "nope", none⟩]⟩]
        ⟨true, Except.ok [], ⟨true, []⟩, Except.error ()⟩
        ⟨"1", "ping", JsVal.jsNull⟩)
      = [Effect.sendActionResult "1" true (some "nope")]
    ∧ Effect.sendActionResult "1" false (some "nope")
        ∉ RCEActionHandler
            [⟨"ping", "d", none, PermissionLevel.AUTOPILOT,
              some [fun _ => ⟨false, some "nope", none⟩]⟩]
            ⟨true, Except.ok [], ⟨true, []⟩, Except.error ()⟩
            ⟨"1", "ping", JsVal.jsNull⟩ := by
  decide

/-- C5 as amended: for a custom-validator failure whose retry flag is
unset (`undefined`), the result sent to the caller has `success = true`
(the unset flag is treated like `retry = false`, because the sent flag
is the JS negation `!retry`). -/
theorem retry_unset_sends_success_true (catalog : List RCEAction)
    (env : DispatchEnv) (a : ActionData) (action : RCEAction) (cfg : JsObj)
    (pre post : List ValidatorFn) (v : ValidatorFn)
    (hdocker : env.dockerInitialized = true)
    (hfind : catalog.find? (fun act => act.name == a.name) = some action)
    (hperm : env.permCheck = Except.ok cfg)
    (hallow : permDenies cfg a.name = false)
    (hgate : action.schema = none ∨ env.validateOutcome.valid = true)
    (hvs : action.validators = some (pre ++ v :: post))
    (hpre : ∀ u ∈ pre, (u a).success = true)
    (hfail : (v a).success = false)
    (hretry : (v a).retry = none) :
    resultEffects (RCEActionHandler catalog env a)
      = [Effect.sendActionResult a.id true ((v a).message)] := by
  obtain ⟨h1, h2, h3⟩ := validatorStage_firstFail env a v post hfail pre 0 hpre
  have hnot : jsNot ((v a).retry) = true := by rw [hretry]; rfl
  have hstage : RCEActionHandler catalog env a
      = Effect.consoleLog ("Received action from Neuro: " ++ a.name)
        :: Effect.permCheckRun :: schemaStage env a action := by
    rw [dispatch_eq_found catalog env a action hdocker hfind,
      permStage_eq_allowed env a action cfg hperm hallow]
  cases hs : action.schema with
  | none =>
      rw [hstage, schemaStage_eq_noSchema env a action hs,
        validatorsOrExec_eq_some env a action _ hvs,
        show resultEffects (Effect.consoleLog ("Received action from Neuro: "
          ++ a.name) :: Effect.permCheckRun
            :: validatorStage env a 0 (pre ++ v :: post))
          = resultEffects (validatorStage env a 0 (pre ++ v :: post)) by
            simp [resultEffects, List.filter_cons, isResultEffect],
        h1, hnot]
  | some sch =>
      have hvalid : env.validateOutcome.valid = true := by
        cases hgate with
        | inl h => rw [h] at hs; cases hs
        | inr h => exact h
      rw [hstage, schemaStage_eq_valid env a action sch hs hvalid,
        validatorsOrExec_eq_some env a action _ hvs,
        show resultEffects (Effect.consoleLog ("Received action from Neuro: "
          ++ a.name) :: Effect.permCheckRun :: Effect.schemaValidateRun
            :: validatorStage env a 0 (pre ++ v :: post))
          = resultEffects (validatorStage env a 0 (pre ++ v :: post)) by
            simp [resultEffects, List.filter_cons, isResultEffect],
        h1, hnot]

/-- Witness for C5 (amended): a validator failing with `retry` unset. -/
theorem retry_unset_sends_success_true_witness :
    ((⟨true, Except.ok [], ⟨true, []⟩, Except.error ()⟩ : DispatchEnv).dockerInitialized
        = true)
    ∧ ((fun (_ : ActionData) => (⟨false, some "nope", none⟩ : ActionValidationResult))
          ⟨"1", "ping", JsVal.jsNull⟩).retry = none
    ∧ (resultEffects (RCEActionHandler
          [⟨"ping", "d", none, PermissionLevel.AUTOPILOT,
            some [fun _ => ⟨false, some "nope", none⟩]⟩]
          ⟨true, Except.ok [], ⟨true, []⟩, Except.error ()⟩
          ⟨"1", "ping", JsVal.jsNull⟩)
        = [Effect.sendActionResult "1" true (some "nope")]) :=
  ⟨rfl, rfl,
    retry_unset_sends_success_true
      [⟨"ping", "d", none, PermissionLevel.AUTOPILOT,
        some [fun _ => ⟨false, some "nope", none⟩]⟩]
      ⟨true, Except.ok [], ⟨true, []⟩, Except.error ()⟩
      ⟨"1", "ping", JsVal.jsNull⟩
      ⟨"ping", "d", none, PermissionLevel.AUTOPILOT,
        some [fun _ => ⟨false, some "nope", none⟩]⟩
      [] [] [] (fun _ => ⟨false, some "nope", none⟩)
      rfl rfl rfl rfl (Or.inl rfl) rfl (fun u hu => absurd hu (List.not_mem_nil u))
      rfl rfl⟩

/-! ### Claim C6: schema validation failure -/

theorem isPrefixOf_append_self {α : Type} [BEq α] [LawfulBEq α] (l t : List α) :
    l.isPrefixOf (l ++ t) = true := by
  induction l with
  | nil => simp [List.isPrefixOf]
  | cons x xs ih => simp [List.isPrefixOf, ih]

/-- Stripping really removes a leading "instance." from an error path. -/
theorem stripInstanceDot_strips (s : String) :
    stripInstanceDot (String.mk ("instance.".data ++ s.data)) = s := by
  unfold stripInstanceDot
  simp only [isPrefixOf_append_self, if_true]
  rw [show (9 : Nat) = ("instance.".data).length from rfl, List.drop_left]

/-- C6: if a dispatched action declares a schema and the request's
params fail schema validation, the dispatcher sends one failed result
whose message lists each (prefix-stripped) violation on its own
"- "-bulleted line joined by newlines, ends with the retry guidance
sentence, and falls back to a generic error line when the validator
reports zero structured errors; no validator or handler runs. -/
theorem schema_failure_message_contract (catalog : List RCEAction)
    (env : DispatchEnv) (a : ActionData) (action : RCEAction) (cfg : JsObj)
    (sch : JsVal)
    (hdocker : env.dockerInitialized = true)
    (hfind : catalog.find? (fun act => act.name == a.name) = some action)
    (hperm : env.permCheck = Except.ok cfg)
    (hallow : permDenies cfg a.name = false)
    (hs : action.schema = some sch)
    (hinvalid : env.validateOutcome.valid = false) :
    resultEffects (RCEActionHandler catalog env a)
        = [Effect.sendActionResult a.id false
            (some (schemaFailMessage env.validateOutcome.errors))]
      ∧ schemaFailMessage env.validateOutcome.errors
          = "Action failed, your inputs did not pass schema validation due to these problems:\n\n"
            ++ "- " ++ String.intercalate "\n- " (schemaMessages env.validateOutcome.errors)
            ++ "\n\nPlease pay attention to the schema and the above errors if you choose to retry."
      ∧ (env.validateOutcome.errors = [] →
          schemaMessages env.validateOutcome.errors = ["Unknown schema validation error."])
      ∧ (env.validateOutcome.errors ≠ [] →
          schemaMessages env.validateOutcome.errors
            = env.validateOutcome.errors.map fun erm => stripInstanceDot erm.stack)
      ∧ (∀ s : String, stripInstanceDot (String.mk ("instance.".data ++ s.data)) = s)
      ∧ (RCEActionHandler catalog env a).filter isValidatorRunEffect = []
      ∧ Effect.handlerRun ∉ RCEActionHandler catalog env a := by
  have htr : RCEActionHandler catalog env a
      = Effect.consoleLog ("Received action from Neuro: " ++ a.name)
        :: Effect.permCheckRun
          :: [Effect.schemaValidateRun,
              Effect.sendActionResult a.id false
                (some (schemaFailMessage env.validateOutcome.errors))] := by
    rw [dispatch_eq_found catalog env a action hdocker hfind,
      permStage_eq_allowed env a action cfg hperm hallow,
      schemaStage_eq_invalid env a action sch hs hinvalid]
  refine ⟨?_, rfl, ?_, ?_, stripInstanceDot_strips, ?_, ?_⟩
  · rw [htr]; simp [resultEffects, List.filter_cons, isResultEffect]
  · intro h; rw [schemaMessages, h]; rfl
  · intro h
    cases herr : env.validateOutcome.errors with
    | nil => exact absurd herr h
    | cons e es => simp [schemaMessages]
  · rw [htr]; simp [List.filter_cons, isValidatorRunEffect]
  · rw [htr]; simp

/-- Witness for C6: "start_container" from the shipped catalog, with the
validator reporting the missing required field; the concrete message is
also evaluated in full. -/
theorem schema_failure_message_contract_witness :
    ((⟨true, Except.ok [], ⟨false, [⟨"instance.container is required"⟩]⟩,
        Except.error ()⟩ : DispatchEnv).dockerInitialized = true)
    ∧ (actions.find? (fun act => act.name == "start_container")
        = some ⟨"start_container", "Start a stopped Docker container by name or ID.",
            some containerTargetSchema, PermissionLevel.OFF, none⟩)
    ∧ ((⟨true, Except.ok [], ⟨false, [⟨"instance.container is required"⟩]⟩,
        Except.error ()⟩ : DispatchEnv).validateOutcome.valid = false)
    ∧ (resultEffects (RCEActionHandler actions
          ⟨true, Except.ok [], ⟨false, [⟨"instance.container is required"⟩]⟩,
            Except.error ()⟩
          ⟨"3", "start_container", JsVal.jsObj []⟩)
        = [Effect.sendActionResult "3" false
            (some (schemaFailMessage [⟨"instance.container is required"⟩]))])
    ∧ schemaFailMessage [⟨"instance.container is required"⟩]
        = "Action failed, your inputs did not pass schema validation due to these problems:\n\n- container is required\n\nPlease pay attention to the schema and the above errors if you choose to retry." :=
  ⟨rfl, rfl, rfl,
    (schema_failure_message_contract actions
      ⟨true, Except.ok [], ⟨false, [⟨"instance.container is required"⟩]⟩,
        Except.error ()⟩
      ⟨"3", "start_container", JsVal.jsObj []⟩
      ⟨"start_container", "Start a stopped Docker container by name or ID.",
        some containerTargetSchema, PermissionLevel.OFF, none⟩
      [] containerTargetSchema rfl rfl rfl rfl rfl rfl).1,
    by decide⟩

/-! ### Claim C8: the request id is echoed exactly once -/

/-- C8: for every inbound request processed while the docker client is
initialized, the dispatcher calls `sendActionResult` exactly once across
all terminal paths, always with that request's id; and whenever the
handler ran, the one result is the bare pre-execution acknowledgment
(`success = true`, no message) — so nothing is sent on the result
channel after the acknowledgment, and handler outcomes reach the caller
only through the context channel. -/
theorem result_id_echoed_exactly_once (catalog : List RCEAction)
    (env : DispatchEnv) (a : ActionData)
    (hdocker : env.dockerInitialized = true) :
    (resultEffects (RCEActionHandler catalog env a)).length = 1
      ∧ AllResultsFor (RCEActionHandler catalog env a) a.id
      ∧ (Effect.handlerRun ∈ RCEActionHandler catalog env a →
          resultEffects (RCEActionHandler catalog env a)
            = [Effect.sendActionResult a.id true none]) := by
  obtain ⟨s, m, hres, hhand⟩ := dispatch_results_spec catalog env a hdocker
  refine ⟨by rw [hres]; rfl, allResultsFor_of_single _ _ _ _ hres, ?_⟩
  intro hmem
  obtain ⟨hs, hm⟩ := hhand hmem
  rw [hres, hs, hm]

/-- Witness for C8: a fully passing request against the shipped catalog
("list_containers" with permissions allowing it). -/
theorem result_id_echoed_exactly_once_witness :
    ((⟨true, Except.ok [("list_containers", JsVal.jsBool true)], ⟨true, []⟩,
        Except.ok ⟨true, "Found 0 containers: ", none⟩⟩ : DispatchEnv).dockerInitialized
        = true)
    ∧ ((resultEffects (RCEActionHandler actions
          ⟨true, Except.ok [("list_containers", JsVal.jsBool true)], ⟨true, []⟩,
            Except.ok ⟨true, "Found 0 containers: ", none⟩⟩
          ⟨"9", "list_containers", JsVal.jsNull⟩)).length = 1
      ∧ AllResultsFor (RCEActionHandler actions
          ⟨true, Except.ok [("list_containers", JsVal.jsBool true)], ⟨true, []⟩,
            Except.ok ⟨true, "Found 0 containers: ", none⟩⟩
          ⟨"9", "list_containers", JsVal.jsNull⟩) "9"
      ∧ (Effect.handlerRun ∈ RCEActionHandler actions
            ⟨true, Except.ok [("list_containers", JsVal.jsBool true)], ⟨true, []⟩,
              Except.ok ⟨true, "Found 0 containers: ", none⟩⟩
            ⟨"9", "list_containers", JsVal.jsNull⟩ →
          resultEffects (RCEActionHandler actions
            ⟨true, Except.ok [("list_containers", JsVal.jsBool true)], ⟨true, []⟩,
              Except.ok ⟨true, "Found 0 containers: ", none⟩⟩
            ⟨"9", "list_containers", JsVal.jsNull⟩)
            = [Effect.sendActionResult "9" true none])) :=
  ⟨rfl,
    result_id_echoed_exactly_once actions
      ⟨true, Except.ok [("list_containers", JsVal.jsBool true)], ⟨true, []⟩,
        Except.ok ⟨true, "Found 0 containers: ", none⟩⟩
      ⟨"9", "list_containers", JsVal.jsNull⟩ rfl⟩

/-! ### Claim C10: the permission gate and readConfig passthrough -/

/-- A new-format file (`{permissions: <truthy object>}`) makes
`readConfig` return the permissions value as-is, with no write back. -/
theorem readConfig_newFormat (acts : List ActionLike) (fileFields : JsObj)
    (perms : JsVal) (hp : jsLookup fileFields "permissions" = some perms)
    (htr : jsTruthy perms = true) (hty : jsTypeofObject perms = true) :
    readConfig acts (FileState.parsed (JsVal.jsObj fileFields))
      = ⟨jsObjView perms, none, false⟩ := by
  have h1 : jsGetProp (JsVal.jsObj fileFields) "permissions" = perms := by
    unfold jsGetProp jsObjView
    rw [hp]
    rfl
  have h2 : jsTruthy (JsVal.jsObj fileFields) = true := rfl
  have h3 : jsTypeofObject (JsVal.jsObj fileFields) = true := rfl
  simp [readConfig, h1, h2, h3, htr, hty]

/-- C10: the dispatcher's permission gate rejects a request if and only
if the config returned by `readConfig` maps the action's name to exactly
the JS value `false`; a missing name, or any non-`false` value, lets
dispatch proceed into the schema stage — and for a new-format file,
`readConfig` returns the file's `permissions` object as-is (no
reconciliation against the catalog, no value validation, no write). -/
theorem permission_gate_exact_false_iff (catalog : List RCEAction)
    (env : DispatchEnv) (a : ActionData) (action : RCEAction)
    (perms : JsObj) (fileFields : JsObj)
    (hdocker : env.dockerInitialized = true)
    (hfind : catalog.find? (fun act => act.name == a.name) = some action)
    (hfile : jsLookup fileFields "permissions" = some (JsVal.jsObj perms))
    (hperm : env.permCheck = Except.ok (readConfig (toActionLikes catalog)
        (FileState.parsed (JsVal.jsObj fileFields))).config) :
    (readConfig (toActionLikes catalog)
        (FileState.parsed (JsVal.jsObj fileFields))).config = perms
      ∧ (readConfig (toActionLikes catalog)
          (FileState.parsed (JsVal.jsObj fileFields))).wrote = none
      ∧ (permDenies perms a.name = true →
          resultEffects (RCEActionHandler catalog env a)
            = [Effect.sendActionResult a.id false (some (disabledMsg a.name))])
      ∧ (permDenies perms a.name = false →
          RCEActionHandler catalog env a
            = Effect.consoleLog ("Received action from Neuro: " ++ a.name)
              :: Effect.permCheckRun :: schemaStage env a action)
      ∧ (jsLookup perms a.name = none → permDenies perms a.name = false)
      ∧ (∀ w, jsLookup perms a.name = some w →
          (permDenies perms a.name = true ↔ w = JsVal.jsBool false)) := by
  have hcfg : readConfig (toActionLikes catalog)
      (FileState.parsed (JsVal.jsObj fileFields)) = ⟨perms, none, false⟩ :=
    readConfig_newFormat (toActionLikes catalog) fileFields (JsVal.jsObj perms)
      hfile rfl rfl
  have hperm2 : env.permCheck = Except.ok perms := by rw [hperm, hcfg]
  refine ⟨by rw [hcfg], by rw [hcfg], ?_, ?_, ?_, ?_⟩
  · intro hoff
    rw [dispatch_eq_found catalog env a action hdocker hfind,
      permStage_eq_denied env a action perms hperm2 hoff]
    simp [resultEffects, List.filter_cons, isResultEffect]
  · intro hoff
    rw [dispatch_eq_found catalog env a action hdocker hfind,
      permStage_eq_allowed env a action perms hperm2 hoff]
  · intro h
    unfold permDenies
    rw [h]
  · intro w hw
    unfold permDenies
    rw [hw]
    cases w with
    | jsBool b =>
        cases b with
        | false => simp
        | true => simp
    | jsNum n => simp
    | jsStr s => simp
    | jsNull => simp
    | jsUndefined => simp
    | jsObj fields => simp
    | jsArr elems => simp

/-- Witness for C10: a new-format file storing the leveled string "OFF"
for "start_container" — not the exact value `false` — so the gate lets
the dispatch proceed. -/
theorem permission_gate_exact_false_iff_witness :
    ((⟨true,
        Except.ok (readConfig (toActionLikes actions)
          (FileState.parsed (JsVal.jsObj
            [("permissions", JsVal.jsObj
                [("start_container", JsVal.jsStr "OFF")])]))).config,
        ⟨true, []⟩, Except.error ()⟩ : DispatchEnv).dockerInitialized = true)
    ∧ (actions.find? (fun act => act.name == "start_container")
        = some ⟨"start_container", "Start a stopped Docker container by name or ID.",
            some containerTargetSchema, PermissionLevel.OFF, none⟩)
    ∧ (jsLookup [("permissions", JsVal.jsObj [("start_container", JsVal.jsStr "OFF")])]
          "permissions" = some (JsVal.jsObj [("start_container", JsVal.jsStr "OFF")]))
    ∧ permDenies [("start_container", JsVal.jsStr "OFF")] "start_container" = false
    ∧ ((readConfig (toActionLikes actions)
          (FileState.parsed (JsVal.jsObj
            [("permissions", JsVal.jsObj
                [("start_container", JsVal.jsStr "OFF")])]))).config
        = [("start_container", JsVal.jsStr "OFF")]
      ∧ (readConfig (toActionLikes actions)
          (FileState.parsed (JsVal.jsObj
            [("permissions", JsVal.jsObj
                [("start_container", JsVal.jsStr "OFF")])]))).wrote = none) :=
  ⟨rfl, rfl, rfl, rfl,
    (permission_gate_exact_false_iff actions
      ⟨true,
        Except.ok (readConfig (toActionLikes actions)
          (FileState.parsed (JsVal.jsObj
            [("permissions", JsVal.jsObj
                [("start_container", JsVal.jsStr "OFF")])]))).config,
        ⟨true, []⟩, Except.error ()⟩
      ⟨"4", "start_container", JsVal.jsObj [("container", JsVal.jsStr "web")]⟩
      ⟨"start_container", "Start a stopped Docker container by name or ID.",
        some containerTargetSchema, PermissionLevel.OFF, none⟩
      [("start_container", JsVal.jsStr "OFF")]
      [("permissions", JsVal.jsObj [("start_container", JsVal.jsStr "OFF")])]
      rfl rfl rfl rfl).1,
    (permission_gate_exact_false_iff actions
      ⟨true,
        Except.ok (readConfig (toActionLikes actions)
          (FileState.parsed (JsVal.jsObj
            [("permissions", JsVal.jsObj
                [("start_container", JsVal.jsStr "OFF")])]))).config,
        ⟨true, []⟩, Except.error ()⟩
      ⟨"4", "start_container", JsVal.jsObj [("container", JsVal.jsStr "web")]⟩
      ⟨"start_container", "Start a stopped Docker container by name or ID.",
        some containerTargetSchema, PermissionLevel.OFF, none⟩
      [("start_container", JsVal.jsStr "OFF")]
      [("permissions", JsVal.jsObj [("start_container", JsVal.jsStr "OFF")])]
      rfl rfl rfl rfl).2.1⟩

/-! ### Claim C3: registration sync vs default permissions -/

/-- C3, counterexample to the claim as stated: "list_containers" has
`defaultPermission = OFF`, and with no persisted override (missing
config file, whose self-healed defaults record the action as enabled,
not OFF), the full registration sync still passes its name to
`registerActions` — the sync registers the whole catalog without
consulting permissions. -/
theorem off_default_action_registered_counterexample :
    ((actions.find? (fun a => a.name == "list_containers")).map
        (fun a => a.defaultPermission) = some PermissionLevel.OFF)
    ∧ "list_containers" ∈ reregisterAllActions.registered.map NeuroAction.name
    ∧ jsLookup (readConfig (toActionLikes actions) FileState.missing).config
        "list_containers" = some (JsVal.jsBool true) :=
  ⟨by decide, by decide, rfl⟩

/-- C3 as amended: for every catalog action — in particular every action
whose `defaultPermission` is OFF and that has no persisted override —
the full registration sync `reregisterAllActions` does include that
action's name in the set passed to the transport's `registerActions`
(and in the unregistered set): the sync takes no permission input at all
and registers the whole catalog unconditionally. -/
theorem full_sync_registers_all_actions (act : RCEAction)
    (hmem : act ∈ actions)
    (hoff : act.defaultPermission = PermissionLevel.OFF) :
    act.name ∈ reregisterAllActions.registered.map NeuroAction.name
      ∧ act.name ∈ reregisterAllActions.unregistered := by
  constructor
  · show act.name ∈ (stripToActions actions).map NeuroAction.name
    rw [stripToActions, List.map_map]
    exact List.mem_map.mpr ⟨act, hmem, rfl⟩
  · show act.name ∈ actions.map (fun a => a.name)
    exact List.mem_map.mpr ⟨act, hmem, rfl⟩

/-- Witness for C3 (amended): the OFF-by-default "list_containers". -/
theorem full_sync_registers_all_actions_witness :
    ((⟨"list_containers", "List all Docker containers with their current status.",
        none, PermissionLevel.OFF, none⟩ : RCEAction) ∈ actions)
    ∧ ((⟨"list_containers", "List all Docker containers with their current status.",
        none, PermissionLevel.OFF, none⟩ : RCEAction).defaultPermission
        = PermissionLevel.OFF)
    ∧ ("list_containers" ∈ reregisterAllActions.registered.map NeuroAction.name
      ∧ "list_containers" ∈ reregisterAllActions.unregistered) :=
  ⟨List.mem_append_left _ (List.mem_cons_self _ _), rfl,
    full_sync_registers_all_actions
      ⟨"list_containers", "List all Docker containers with their current status.",
        none, PermissionLevel.OFF, none⟩
      (List.mem_append_left _ (List.mem_cons_self _ _)) rfl⟩

/-! ### Claim C9: normalizeConfig is idempotent

The lemmas below develop the JS-object algebra of `objInsert` /
`spreadInto` / `boolObj` needed to prove that normalizing an already
normalized config is the identity. -/

theorem keysOf_nil : keysOf [] = [] := rfl

theorem keysOf_cons (p : String × JsVal) (rest : JsObj) :
    keysOf (p :: rest) = p.1 :: keysOf rest := rfl

theorem keysOf_objInsert (l : JsObj) (k : String) (v : JsVal) :
    keysOf (objInsert l k v)
      = if k ∈ keysOf l then keysOf l else keysOf l ++ [k] := by
  induction l with
  | nil => simp [objInsert, keysOf]
  | cons p rest ih =>
      by_cases h : p.1 = k
      · simp [objInsert, keysOf_cons, h]
      · have hbeq : (p.1 == k) = false := by simp [h]
        by_cases hm : k ∈ keysOf rest <;>
          simp [objInsert, keysOf_cons, hbeq, hm, ih, Ne.symm h]

theorem nodupKeys_objInsert (l : JsObj) (k : String) (v : JsVal)
    (h : NodupKeys l) : NodupKeys (objInsert l k v) := by
  unfold NodupKeys at h ⊢
  rw [keysOf_objInsert]
  by_cases hm : k ∈ keysOf l
  · simpa [hm] using h
  · simp only [hm, if_false]
    exact List.nodup_append.mpr
      ⟨h, List.nodup_singleton k,
        fun x hx hk => hm (by rwa [← List.mem_singleton.mp hk])⟩

theorem jsLookup_objInsert (l : JsObj) (k : String) (v : JsVal) (q : String) :
    jsLookup (objInsert l k v) q = if q = k then some v else jsLookup l q := by
  induction l with
  | nil =>
      by_cases h : q = k
      · simp [objInsert, jsLookup, h]
      · simp [objInsert, jsLookup, h, Ne.symm h]
  | cons p rest ih =>
      by_cases h2 : q = k
      · subst h2
        by_cases h1 : p.1 = q
        · simp [objInsert, jsLookup, h1]
        · have hbeq : (p.1 == q) = false := by simp [h1]
          simp [objInsert, jsLookup, hbeq, ih]
      · have hkq : ¬k = q := fun hc => h2 hc.symm
        by_cases h1 : p.1 = k
        · simp [objInsert, jsLookup, h1, h2, hkq]
        · have hbeq : (p.1 == k) = false := by simp [h1]
          by_cases h3 : p.1 = q <;>
            simp [objInsert, jsLookup, hbeq, h2, h3, ih]

theorem jsLookup_eq_none_iff (l : JsObj) (k : String) :
    jsLookup l k = none ↔ k ∉ keysOf l := by
  induction l with
  | nil => simp [jsLookup, keysOf]
  | cons p rest ih =>
      by_cases h : p.1 = k
      · simp [jsLookup, keysOf_cons, h]
      · simp [jsLookup, keysOf_cons, h, ih, Ne.symm h]

theorem spreadInto_nil (dst : JsObj) : spreadInto dst [] = dst := rfl

theorem spreadInto_cons (dst : JsObj) (p : String × JsVal) (rest : JsObj) :
    spreadInto dst (p :: rest) = spreadInto (objInsert dst p.1 p.2) rest := rfl

theorem keysOf_spreadInto_ext (src : JsObj) :
    ∀ dst : JsObj, ∃ R, keysOf (spreadInto dst src) = keysOf dst ++ R := by
  induction src with
  | nil => exact fun dst => ⟨[], by simp [spreadInto_nil]⟩
  | cons p rest ih =>
      intro dst
      obtain ⟨R, hR⟩ := ih (objInsert dst p.1 p.2)
      rw [spreadInto_cons]
      by_cases hm : p.1 ∈ keysOf dst
      · exact ⟨R, by rw [hR, keysOf_objInsert]; simp [hm]⟩
      · exact ⟨p.1 :: R, by rw [hR, keysOf_objInsert]; simp [hm]⟩

theorem nodupKeys_spreadInto (src : JsObj) :
    ∀ dst : JsObj, NodupKeys dst → NodupKeys (spreadInto dst src) := by
  induction src with
  | nil => exact fun dst h => h
  | cons p rest ih =>
      intro dst h
      rw [spreadInto_cons]
      exact ih _ (nodupKeys_objInsert dst p.1 p.2 h)

theorem nodupKeys_cons_head (p : String × JsVal) (rest : JsObj)
    (h : NodupKeys (p :: rest)) : p.1 ∉ keysOf rest :=
  (List.nodup_cons.mp h).1

theorem nodupKeys_cons_tail (p : String × JsVal) (rest : JsObj)
    (h : NodupKeys (p :: rest)) : NodupKeys rest :=
  (List.nodup_cons.mp h).2

theorem jsLookup_spreadInto (src : JsObj) (hsrc : NodupKeys src) :
    ∀ (dst : JsObj) (k : String),
      jsLookup (spreadInto dst src) k
        = match jsLookup src k with
          | some v => some v
          | none => jsLookup dst k := by
  induction src with
  | nil => intro dst k; simp [spreadInto_nil, jsLookup]
  | cons p rest ih =>
      intro dst k
      have hhead : p.1 ∉ keysOf rest := nodupKeys_cons_head p rest hsrc
      have htail : NodupKeys rest := nodupKeys_cons_tail p rest hsrc
      rw [spreadInto_cons, ih htail]
      by_cases h : k = p.1
      · have hnone : jsLookup rest k = none :=
          (jsLookup_eq_none_iff rest k).mpr (h ▸ hhead)
        have hcons : jsLookup (p :: rest) k = some p.2 := by
          simp [jsLookup, h]
        rw [hnone, hcons, jsLookup_objInsert, if_pos h]
      · have hcons : jsLookup (p :: rest) k = jsLookup rest k := by
          simp [jsLookup, Ne.symm h]
        rw [hcons, jsLookup_objInsert, if_neg h]

theorem keysOf_spreadInto_filter (src : JsObj) (hsrc : NodupKeys src) :
    ∀ dst : JsObj,
      keysOf (spreadInto dst src)
        = keysOf dst
          ++ (keysOf src).filter (fun k => !(decide (k ∈ keysOf dst))) := by
  induction src with
  | nil => intro dst; simp [spreadInto_nil, keysOf]
  | cons p rest ih =>
      intro dst
      have hhead : p.1 ∉ keysOf rest := nodupKeys_cons_head p rest hsrc
      have htail : NodupKeys rest := nodupKeys_cons_tail p rest hsrc
      rw [spreadInto_cons, ih htail, keysOf_objInsert, keysOf_cons]
      by_cases hm : p.1 ∈ keysOf dst
      · simp only [hm, if_true, List.filter_cons]
        simp [hm]
      · simp only [hm, if_false, List.filter_cons]
        have hfilter :
            (keysOf rest).filter (fun k => !(decide (k ∈ keysOf dst ++ [p.1])))
              = (keysOf rest).filter (fun k => !(decide (k ∈ keysOf dst))) := by
          apply List.filter_congr
          intro x hx
          have hxp : x ≠ p.1 := fun hcontra => hhead (hcontra ▸ hx)
          simp [List.mem_append, hxp]
        rw [hfilter]
        simp [hm]

theorem objInsert_of_not_mem (l : JsObj) (k : String) (v : JsVal)
    (h : k ∉ keysOf l) : objInsert l k v = l ++ [(k, v)] := by
  induction l with
  | nil => rfl
  | cons p rest ih =>
      have hne : p.1 ≠ k := fun hc => h (by simp [keysOf_cons, hc])
      have hbeq : (p.1 == k) = false := by simp [hne]
      have hrest : k ∉ keysOf rest := fun hc => h (by simp [keysOf_cons, hc])
      simp [objInsert, hbeq, ih hrest]

theorem boolObj_foldl_eq (raw : JsObj) :
    ∀ acc : JsObj, (∀ p ∈ raw, p.1 ∉ keysOf acc) → NodupKeys raw →
      raw.foldl (fun m p => objInsert m p.1 (JsVal.jsBool (jsTruthy p.2))) acc
        = acc ++ raw.map (fun p => (p.1, JsVal.jsBool (jsTruthy p.2))) := by
  induction raw with
  | nil => intro acc _ _; simp
  | cons p rest ih =>
      intro acc hdisj hnd
      have hhead : p.1 ∉ keysOf rest := nodupKeys_cons_head p rest hnd
      have htail : NodupKeys rest := nodupKeys_cons_tail p rest hnd
      rw [List.foldl_cons,
        objInsert_of_not_mem acc p.1 _ (hdisj p (List.mem_cons_self p rest))]
      rw [ih (acc ++ [(p.1, JsVal.jsBool (jsTruthy p.2))]) ?_ htail]
      · simp
      · intro q hq
        have hq1 : q.1 ∉ keysOf acc := hdisj q (List.mem_cons_of_mem p hq)
        have hq2 : q.1 ≠ p.1 := fun hc =>
          hhead (hc ▸ (List.mem_map.mpr ⟨q, hq, rfl⟩ : q.1 ∈ keysOf rest))
        intro hc
        rw [show keysOf (acc ++ [(p.1, JsVal.jsBool (jsTruthy p.2))])
            = keysOf acc ++ [p.1] from by simp [keysOf]] at hc
        rcases List.mem_append.mp hc with hmem | hmem
        · exact hq1 hmem
        · exact hq2 (List.mem_singleton.mp hmem)

theorem boolObj_eq_map (raw : JsObj) (h : NodupKeys raw) :
    boolObj raw = raw.map (fun p => (p.1, JsVal.jsBool (jsTruthy p.2))) := by
  have := boolObj_foldl_eq raw [] (fun p _ => by simp [keysOf]) h
  simpa [boolObj] using this

theorem nodupKeys_getDefaultConfig_aux (acts : List ActionLike) :
    ∀ cfg : JsObj, NodupKeys cfg →
      NodupKeys (acts.foldl
        (fun cfg act => objInsert cfg act.name (JsVal.jsBool true)) cfg) := by
  induction acts with
  | nil => exact fun cfg h => h
  | cons act rest ih =>
      intro cfg h
      rw [List.foldl_cons]
      exact ih _ (nodupKeys_objInsert cfg act.name _ h)

theorem nodupKeys_getDefaultConfig (acts : List ActionLike) :
    NodupKeys (getDefaultConfig acts) :=
  nodupKeys_getDefaultConfig_aux acts [] (by simp [NodupKeys, keysOf])

theorem keysOf_mapBool (l : JsObj) :
    keysOf (l.map (fun p => (p.1, JsVal.jsBool (jsTruthy p.2)))) = keysOf l := by
  induction l with
  | nil => rfl
  | cons p rest ih => simp [keysOf_cons, ih]

theorem jsLookup_mapBool (l : JsObj) (k : String) :
    jsLookup (l.map (fun p => (p.1, JsVal.jsBool (jsTruthy p.2)))) k
      = (jsLookup l k).map (fun v => JsVal.jsBool (jsTruthy v)) := by
  induction l with
  | nil => rfl
  | cons p rest ih =>
      by_cases h : p.1 = k <;> simp [jsLookup, h, ih]

theorem jsObj_ext : ∀ (A B : JsObj), NodupKeys A → keysOf A = keysOf B →
    (∀ k, jsLookup A k = jsLookup B k) → A = B := by
  intro A
  induction A with
  | nil =>
      intro B _ hk _
      cases B with
      | nil => rfl
      | cons q s => simp [keysOf] at hk
  | cons p rest ih =>
      intro B hnd hk hl
      cases B with
      | nil => simp [keysOf] at hk
      | cons q s =>
          have hk1 : p.1 = q.1 := by
            have := congrArg (fun l => l.head?) hk
            simpa [keysOf_cons] using this
          have hk2 : keysOf rest = keysOf s := by
            have := congrArg (fun l => l.tail) hk
            simpa [keysOf_cons] using this
          have hhead : p.1 ∉ keysOf rest := nodupKeys_cons_head p rest hnd
          have htail : NodupKeys rest := nodupKeys_cons_tail p rest hnd
          have hv : p.2 = q.2 := by
            have h1 : jsLookup (p :: rest) p.1 = some p.2 := by simp [jsLookup]
            have h2 : jsLookup (q :: s) p.1 = some q.2 := by
              simp [jsLookup, hk1.symm]
            have := hl p.1
            rw [h1, h2] at this
            exact Option.some.inj this
          have htails : ∀ k, jsLookup rest k = jsLookup s k := by
            intro k
            by_cases h : k = p.1
            · have hr : jsLookup rest k = none :=
                (jsLookup_eq_none_iff rest k).mpr (h ▸ hhead)
              have hsn : jsLookup s k = none := by
                apply (jsLookup_eq_none_iff s k).mpr
                rw [← hk2]
                exact h ▸ hhead
              rw [hr, hsn]
            · have hpk : ¬p.1 = k := fun hc => h hc.symm
              have hne : (p.1 == k) = false := by simp [hpk]
              have hneq : (q.1 == k) = false := by rw [← hk1]; exact hne
              have := hl k
              simpa [jsLookup, hne, hneq] using this
          have hrest : rest = s := ih s htail hk2 htails
          rw [hrest, Prod.ext hk1 hv]

/-- C9: for every catalog and every input map, applying
`normalizeConfig` twice equals applying it once —
`normalizeConfig(catalog, normalizeConfig(catalog, input))` is the same
object (same keys, same insertion order, same values) as
`normalizeConfig(catalog, input)`. -/
theorem normalizeConfig_idempotent (acts : List ActionLike) (input : Option JsObj) :
    normalizeConfig acts (some (normalizeConfig acts input none)) none
      = normalizeConfig acts input none := by
  have hbase : NodupKeys (getDefaultConfig acts) := nodupKeys_getDefaultConfig acts
  have hnd1 : NodupKeys (spreadInto (getDefaultConfig acts) (input.getD [])) :=
    nodupKeys_spreadInto (input.getD []) (getDefaultConfig acts) hbase
  have hout : normalizeConfig acts input none
      = (spreadInto (getDefaultConfig acts) (input.getD [])).map
          (fun p => (p.1, JsVal.jsBool (jsTruthy p.2))) :=
    boolObj_eq_map _ hnd1
  set raw1 := spreadInto (getDefaultConfig acts) (input.getD []) with hraw1
  set out := raw1.map (fun p => (p.1, JsVal.jsBool (jsTruthy p.2))) with hdefout
  have hkeysout : keysOf out = keysOf raw1 := keysOf_mapBool raw1
  have hndout : NodupKeys out := by
    unfold NodupKeys
    rw [hkeysout]
    exact hnd1
  obtain ⟨R, hR⟩ := keysOf_spreadInto_ext (input.getD []) (getDefaultConfig acts)
  have hndm2 : NodupKeys (spreadInto (getDefaultConfig acts) out) :=
    nodupKeys_spreadInto out (getDefaultConfig acts) hbase
  have hkeysm2 : keysOf (spreadInto (getDefaultConfig acts) out) = keysOf out := by
    rw [keysOf_spreadInto_filter out hndout (getDefaultConfig acts),
      hkeysout, hR, List.filter_append]
    have hfirst : (keysOf (getDefaultConfig acts)).filter
        (fun k => !(decide (k ∈ keysOf (getDefaultConfig acts)))) = [] := by
      apply List.filter_eq_nil_iff.mpr
      intro x hx
      simp [hx]
    have hdisj : ∀ x ∈ R, x ∉ keysOf (getDefaultConfig acts) := by
      have hnodup : (keysOf (getDefaultConfig acts) ++ R).Nodup := by
        have := hnd1
        unfold NodupKeys at this
        rwa [hR] at this
      intro x hx hmem
      exact (List.nodup_append.mp hnodup).2.2 hmem hx
    have hsecond : R.filter
        (fun k => !(decide (k ∈ keysOf (getDefaultConfig acts)))) = R :=
      List.filter_eq_self.mpr (fun x hx => by simp [hdisj x hx])
    rw [hfirst, hsecond, List.nil_append]
  have hlookup : ∀ k,
      jsLookup (boolObj (spreadInto (getDefaultConfig acts) out)) k
        = jsLookup out k := by
    intro k
    rw [boolObj_eq_map _ hndm2, jsLookup_mapBool,
      jsLookup_spreadInto out hndout (getDefaultConfig acts) k]
    cases hv : jsLookup out k with
    | some v =>
        have : ∃ w, jsLookup raw1 k = some w ∧ v = JsVal.jsBool (jsTruthy w) := by
          have := jsLookup_mapBool raw1 k
          rw [← hdefout] at this
          rw [this] at hv
          cases hw : jsLookup raw1 k with
          | none => rw [hw] at hv; cases hv
          | some w =>
              rw [hw] at hv
              exact ⟨w, rfl, (Option.some.inj hv).symm⟩
        obtain ⟨w, _, hvw⟩ := this
        rw [hvw]
        rfl
    | none =>
        have hnotout : k ∉ keysOf out := (jsLookup_eq_none_iff out k).mp hv
        have hnotbase : k ∉ keysOf (getDefaultConfig acts) := by
          intro hc
          apply hnotout
          rw [hkeysout, hR]
          exact List.mem_append_left R hc
        rw [(jsLookup_eq_none_iff (getDefaultConfig acts) k).mpr hnotbase]
        rfl
  have hfinal : boolObj (spreadInto (getDefaultConfig acts) out) = out := by
    apply jsObj_ext _ _ ?_ ?_ hlookup
    · unfold NodupKeys
      rw [boolObj_eq_map _ hndm2, keysOf_mapBool, hkeysm2]
      exact hndout
    · rw [boolObj_eq_map _ hndm2, keysOf_mapBool, hkeysm2]
  calc normalizeConfig acts (some (normalizeConfig acts input none)) none
      = boolObj (spreadInto (getDefaultConfig acts) out) := by rw [hout]; rfl
    _ = out := hfinal
    _ = normalizeConfig acts input none := hout.symm

end Neurontainer
